import Mathlib

/-!
Shallow embedding of the TinkerTasker agent core (ai-core/src/ai_core):
the message data model (schemas.py), the tool-result adaptation
(mcp_utils.py), the reasoning-markup stripper (litelllm_completion.py),
and the agent turn loop (agent.py).  External collaborators (the MCP
client, the litellm completion transport, json.loads, uuid4 and the
wall clock) are modelled as oracle fields of a `TurnEnv`.
-/

namespace TinkerTasker

/-- A single quote character, used in error-message text. -/
def sq : String := (Char.ofNat 39).toString

/-! ## Data model (schemas.py, mcp_utils.py) -/

/-- One requested tool invocation inside an assistant message
(OpenAI `ChatCompletionMessageToolCallParam`): an id, the function name,
and the arguments as an undecoded string. -/
structure ToolCall where
  id : String
  name : String
  arguments : String
deriving DecidableEq

/-- The decoded key/value mapping produced by `json.loads` on an
arguments string (a JSON object, modelled as an association list). -/
def ArgsMap : Type := List (String × String)

instance : DecidableEq ArgsMap := by
  unfold ArgsMap
  infer_instance

/-- Content of a `ChatCompletionToolMessageParam`: in the source this is
`str` in every path the agent produces, but the type also admits
non-string values (content parts), which `create_message_data` guards
against with an `isinstance` check. -/
inductive ToolMsgContent
| str (s : String)
| nonStr (tag : String)
deriving DecidableEq

/-- `ChatCompletionToolMessageParam` (role "tool"): content plus the id
of the originating tool call. -/
structure ToolMessageParam where
  content : ToolMsgContent
  tool_call_id : String
deriving DecidableEq

/-- The `chat_completion_message_param` payload of a stored Message:
one of the four roles with its role-specific fields. -/
inductive ChatMsg
| system (content : String)
| user (content : String)
| assistant (content : Option String) (tool_calls : List ToolCall)
| tool (tm : ToolMessageParam)
deriving DecidableEq

/-- `Message` (schemas.py): message_id, timestamp and the chat
completion param.  Timestamps are modelled as naturals. -/
structure Message where
  message_id : String
  timestamp : Nat
  chat_completion_message_param : ChatMsg
deriving DecidableEq

/-- One MCP content block returned by `call_tool`
(fastmcp `MCPContent`): either a `TextContent` or some other
(unsupported) content type, abstracted by its type name. -/
inductive MCPContent
| text (t : String)
| other (typeName : String)
deriving DecidableEq

/-- `parse_tool_call_content` (mcp_utils.py): simplifies the tool result
to a string — placeholder for an empty result, the text of the first
block when it is a `TextContent`, and a descriptive fallback otherwise. -/
def parse_tool_call_content : List MCPContent → String
| [] => "Tool executed but returned no result."
| c :: _ =>
  match c with
  | .text t => t
  | .other ty =>
      "Tool returned " ++ ty ++
        " which is not supported. Tell the user their MCP server is not supported yet."

/-- `ToolCallData` (schemas.py): the projected summary of one requested
tool invocation, with decoded arguments. -/
structure ToolCallData where
  name : String
  id : String
  args : ArgsMap
deriving DecidableEq

/-- `MessageData` (schemas.py): the tagged union of
`AssistantMessageData` and `ToolMessageData`, the events a turn yields. -/
inductive MessageData
| assistantData (message : Option String) (tool_calls : List ToolCallData)
| toolData (name : String) (id : String) (content : String)
deriving DecidableEq

/-! ## strip_thinking (litelllm_completion.py)

`re.sub(r"<think>.*?</think>", "", content, flags=re.DOTALL).strip()`:
the regex engine finds non-overlapping matches left to right; with the
lazy `.*?` a match runs from a literal `<think>` to the earliest
`</think>` after it, and scanning resumes after the removed span. -/

/-- Whether the pattern occurs literally at the head of the text. -/
def litHere : List Char → List Char → Bool
| [], _ => true
| _ :: _, [] => false
| p :: ps, c :: cs => p = c && litHere ps cs

/-- Index of the first occurrence of the literal pattern in the text. -/
def findLit (pat : List Char) : List Char → Option Nat
| [] => if litHere pat [] then some 0 else none
| c :: cs =>
  if litHere pat (c :: cs) then some 0
  else (findLit pat cs).map Nat.succ

/-- The opening reasoning marker. -/
def thinkOpen : List Char := "<think>".toList

/-- The closing reasoning marker. -/
def thinkClose : List Char := "</think>".toList

/-- The leftmost lazy match of `<think>.*?</think>`: the first index `i`
of `<think>`, and the index `j` (relative to the text after the opening
marker) of the earliest `</think>` after it.  If the earliest `<think>`
has no closing marker after it, no later one has either, so there is no
match at all. -/
def firstMatch (s : List Char) : Option (Nat × Nat) :=
  match findLit thinkOpen s with
  | none => none
  | some i =>
    match findLit thinkClose (s.drop (i + thinkOpen.length)) with
    | none => none
    | some j => some (i, j)

/-- Fuelled removal of all non-overlapping `<think>.*?</think>` matches,
resuming after each removed span (as `re.sub` does).  The fuel is the
length of the text, which bounds the number of matches. -/
def subThinkAux : Nat → List Char → List Char
| 0, s => s
| fuel + 1, s =>
  match firstMatch s with
  | none => s
  | some (i, j) =>
      s.take i ++
        subThinkAux fuel (s.drop (i + thinkOpen.length + j + thinkClose.length))

/-- `re.sub(r"<think>.*?</think>", "", s, flags=re.DOTALL)`. -/
def subThink (s : List Char) : List Char := subThinkAux s.length s

/-- Python `str.isspace` on the ASCII whitespace characters that
`str.strip()` removes. -/
def isSpc (c : Char) : Bool :=
  c = ' ' || c = Char.ofNat 9 || c = Char.ofNat 10 || c = Char.ofNat 13 ||
    c = Char.ofNat 11 || c = Char.ofNat 12

/-- Remove trailing whitespace (the right half of `str.strip()`). -/
def trimRight (l : List Char) : List Char :=
  (l.reverse.dropWhile isSpc).reverse

/-- Python `str.strip()`: drop leading and trailing whitespace. -/
def pyStrip (l : List Char) : List Char :=
  trimRight (l.dropWhile isSpc)

/-- `strip_thinking` (litelllm_completion.py): `None` and the empty
string are returned unaffected (`if not content ...`); otherwise the
reasoning spans are removed and the result is stripped. -/
def strip_thinking (content : Option String) : Option String :=
  match content with
  | none => none
  | some s => if s = "" then some s else some (String.mk (pyStrip (subThink s.toList)))

/-! ## The external environment of one agent -/

/-- One attempt at `litellm_completion` followed by
`response.choices[0].message`: either an assistant message (optional
content, list of requested tool calls — `None` tool calls and `[]` are
observationally identical through `... or []`), or a raised exception
(transport failure or missing choices). -/
inductive CompletionAttempt
| ok (content : Option String) (tool_calls : List ToolCall)
| fail (e : String)
deriving DecidableEq

/-- One attempt at `mcp_client.call_tool`: the returned content blocks,
or a raised exception with its message. -/
inductive ToolOutcome
| ok (result : List MCPContent)
| exn (e : String)
deriving DecidableEq

/-- The oracles one agent interacts with: the rendered system prompt
(`_compile_system_prompt`, an external template render), the MCP client
(`list_tools`, `call_tool`), the completion transport (indexed by the
number of completion requests issued so far in the turn), `json.loads`
on argument strings (deterministic: a decoded object or a raised
decode/validation error), the stream of `uuid4` draws, and the wall
clock reading taken when the `Message` class body was executed (the
pydantic default for `timestamp` is evaluated exactly once, there). -/
structure TurnEnv where
  systemPrompt : String
  listTools : Except String Unit
  completions : Nat → CompletionAttempt
  jsonParse : String → Except String ArgsMap
  toolExec : String → ArgsMap → ToolOutcome
  uuid : Nat → String
  classDefTime : Nat

/-- Construction of a `Message` with default `message_id` and
`timestamp`: `message_id` comes from `default_factory` (a fresh uuid
per construction, the `draw`-th draw), while `timestamp` is the plain
default `DateTime.now()`, already evaluated when the class was defined
— so it is `env.classDefTime`, independent of when the message is
constructed. -/
def freshMessage (env : TurnEnv) (draw : Nat) (p : ChatMsg) : Message :=
  { message_id := env.uuid draw
    timestamp := env.classDefTime
    chat_completion_message_param := p }

/-- `Message(...)` evaluated at wall-clock time `_now`: pydantic does
not consult the construction-time clock for the `timestamp` default
(it was evaluated once at class definition), so `_now` has no effect. -/
def Message.construct (env : TurnEnv) (_now : Nat) (draw : Nat) (p : ChatMsg) : Message :=
  freshMessage env draw p

/-- `AgentConfig.max_steps` (config.py): the per-turn completion budget,
a plain Python int defaulting to 25 (the other config fields only feed
the external completion call). -/
structure AgentConfig where
  max_steps : Int := 25
deriving DecidableEq

/-- The messages list right after `Agent.__init__`: exactly the system
message built from the compiled system prompt, consuming the first
uuid draw. -/
def agentInit (env : TurnEnv) : List Message :=
  [freshMessage env 0 (ChatMsg.system env.systemPrompt)]

/-! ## Event projection (schemas.py create_message_data) -/

/-- The list comprehension inside `create_message_data` for the
assistant branch: decode each tool call's arguments in order; the first
decode failure raises out of the whole projection. -/
def toolCallDataList (env : TurnEnv) : List ToolCall → Except String (List ToolCallData)
| [] => .ok []
| tc :: rest =>
  match env.jsonParse tc.arguments with
  | .error e => .error e
  | .ok args =>
    match toolCallDataList env rest with
    | .error e => .error e
    | .ok ds => .ok (⟨tc.name, tc.id, args⟩ :: ds)

/-- `create_message_data(assistant_response=...)`: an
`AssistantMessageData` with the (already stripped) content and the
decoded tool-call summaries; raises if any arguments string fails to
decode. -/
def create_message_data_assistant (env : TurnEnv) (content : Option String)
    (tcs : List ToolCall) : Except String MessageData :=
  match toolCallDataList env tcs with
  | .error e => .error e
  | .ok ds => .ok (MessageData.assistantData content ds)

/-- `create_message_data(tool_call=..., tool_message=...)`: a
`ToolMessageData` taking name and id from the tool call, and the tool
message content when it is a string, the empty string otherwise. -/
def create_message_data_tool (tc : ToolCall) (tm : ToolMessageParam) : MessageData :=
  MessageData.toolData tc.name tc.id
    (match tm.content with
     | .str s => s
     | .nonStr _ => "")

/-! ## The agent turn loop (agent.py) -/

/-- The `\nEither try ...` advice appended to tool error messages. -/
def errorAdvice : String :=
  "\nEither try to call the tool again with different arguments to do something else."

/-- The f-string of `Agent.handle_tool_call`'s except branch. -/
def errorMessage (name e : String) : String :=
  "Error executing tool call " ++ sq ++ name ++ sq ++ ": " ++ e ++ errorAdvice

/-- `Agent.handle_tool_call`: decode the arguments, dispatch through the
MCP client and simplify the result; any exception in that try block
(decode failure or tool/transport failure) is caught and folded into a
tool message carrying `errorMessage`.  Always returns a tool message. -/
def handle_tool_call (env : TurnEnv) (tc : ToolCall) : ToolMessageParam :=
  match env.jsonParse tc.arguments with
  | .error e => ⟨ToolMsgContent.str (errorMessage tc.name e), tc.id⟩
  | .ok args =>
    match env.toolExec tc.name args with
    | .exn e => ⟨ToolMsgContent.str (errorMessage tc.name e), tc.id⟩
    | .ok blocks => ⟨ToolMsgContent.str (parse_tool_call_content blocks), tc.id⟩

/-- The messages appended by the inner `for tool_call in tool_calls`
loop, in request order; the message for the i-th call consumes the
(k+i)-th uuid draw. -/
def toolMessages (env : TurnEnv) (k : Nat) : List ToolCall → List Message
| [] => []
| tc :: rest =>
    freshMessage env k (ChatMsg.tool (handle_tool_call env tc)) ::
      toolMessages env (k + 1) rest

/-- The Tool Events yielded by the inner loop, in request order, one per
invocation, each yielded right after its message is appended. -/
def toolEvents (env : TurnEnv) : List ToolCall → List MessageData
| [] => []
| tc :: rest =>
    create_message_data_tool tc (handle_tool_call env tc) :: toolEvents env rest

/-- How a turn ended: the generator completed (plain answer or step
budget exhausted), or an uncaught exception propagated. -/
inductive TurnOutcome
| completed
| raised (e : String)
deriving DecidableEq

/-- The observable result of (the rest of) a turn: the full message
history, the events yielded, how the generator ended, and how many
completion requests were issued. -/
structure TurnResult where
  history : List Message
  events : List MessageData
  outcome : TurnOutcome
  nCompletions : Nat
deriving DecidableEq

/-- The `for _ in range(max_steps)` loop of `Agent.turn`, with `fuel`
iterations left, `step` completion requests already issued, `k` uuid
draws already consumed and the history so far.  Per iteration: one
completion request (a failure raises out of the turn); the assistant
message, content stripped of reasoning markup, is appended; the
assistant event is built (its argument decoding can raise — after the
append, before any dispatch) and yielded; if there are no tool calls
the loop breaks; otherwise each call is dispatched in order, its tool
message appended and its tool event yielded, and the loop repeats. -/
def runSteps (env : TurnEnv) : Nat → Nat → Nat → List Message → TurnResult
| 0, _, _, hist => ⟨hist, [], TurnOutcome.completed, 0⟩
| fuel + 1, step, k, hist =>
  match env.completions step with
  | .fail e => ⟨hist, [], TurnOutcome.raised e, 1⟩
  | .ok content tcs =>
    let c := strip_thinking content
    let hist1 := hist ++ [freshMessage env k (ChatMsg.assistant c tcs)]
    match create_message_data_assistant env c tcs with
    | .error e => ⟨hist1, [], TurnOutcome.raised e, 1⟩
    | .ok aev =>
      if tcs = [] then ⟨hist1, [aev], TurnOutcome.completed, 1⟩
      else
        let r := runSteps env fuel (step + 1) (k + 1 + tcs.length)
          (hist1 ++ toolMessages env (k + 1) tcs)
        ⟨r.history, aev :: (toolEvents env tcs ++ r.events), r.outcome, r.nCompletions + 1⟩

/-- `Agent.turn`: list the available tools (a failure here raises before
anything is appended), append the user message, then run the loop with
the configured budget (`range` of a non-positive int is empty). -/
def turn (env : TurnEnv) (cfg : AgentConfig) (user_utterance : String)
    (hist : List Message) (k : Nat) : TurnResult :=
  match env.listTools with
  | .error e => ⟨hist, [], TurnOutcome.raised e, 0⟩
  | .ok _ =>
      runSteps env cfg.max_steps.toNat 0 (k + 1)
        (hist ++ [freshMessage env k (ChatMsg.user user_utterance)])

/-- A sequence of turns on one agent: each turn runs against its own
environment snapshot and utterance, starting from the history and uuid
draw count the previous turn left behind. -/
def runTurns (cfg : AgentConfig) : List (TurnEnv × String) → List Message → Nat → List Message
| [], hist, _ => hist
| (env, u) :: rest, hist, k =>
  let r := turn env cfg u hist k
  runTurns cfg rest r.history (k + (r.history.length - hist.length))

/-! ## Lemmas about strip_thinking -/

/-- The reconstruction of a string from its character list. -/
theorem mk_toList (s : String) : String.mk s.toList = s := rfl

/-- Dropping trailing whitespace yields a prefix of the original list. -/
theorem trimRight_isPre (l : List Char) : trimRight l <+: l := by
  have h : (l.reverse.dropWhile isSpc) <:+ l.reverse := List.dropWhile_suffix isSpc
  have h2 : (l.reverse.dropWhile isSpc).reverse <+: l.reverse.reverse :=
    List.reverse_prefix.mpr h
  simpa [trimRight, List.reverse_reverse] using h2

/-- A list with no leading whitespace still has none after dropping
trailing whitespace. -/
theorem dropWhile_trimRight (u : List Char) (hu : u.dropWhile isSpc = u) :
    (trimRight u).dropWhile isSpc = trimRight u := by
  cases htr : trimRight u with
  | nil => simp
  | cons c t =>
    have hpre : trimRight u <+: u := trimRight_isPre u
    rw [htr] at hpre
    obtain ⟨s, hs⟩ := hpre
    have h0 : 0 < u.length := by
      rw [← hs]; simp
    have hhd : ¬ isSpc (u.get ⟨0, h0⟩) := by
      have := List.dropWhile_get_zero_not isSpc u (by rw [hu]; exact h0)
      simpa [hu] using this
    have hget : u.get ⟨0, h0⟩ = c := by
      subst hs; rfl
    rw [hget] at hhd
    simp only [List.dropWhile_cons, Bool.not_eq_true] at hhd ⊢
    simp [hhd]

/-- Dropping trailing whitespace twice equals dropping it once. -/
theorem trimRight_idem (l : List Char) : trimRight (trimRight l) = trimRight l := by
  simp [trimRight, List.reverse_reverse, List.dropWhile_idempotent]

/-- Python `str.strip()` is idempotent. -/
theorem pyStrip_idem (l : List Char) : pyStrip (pyStrip l) = pyStrip l := by
  unfold pyStrip
  rw [dropWhile_trimRight (l.dropWhile isSpc) (List.dropWhile_idempotent isSpc l),
    trimRight_idem]

/-- When the text has no reasoning-marker match, the substitution leaves
it unchanged, whatever the fuel. -/
theorem subThinkAux_of_none {s : List Char} (h : firstMatch s = none) :
    ∀ f, subThinkAux f s = s
  | 0 => rfl
  | _ + 1 => by simp [subThinkAux, h]

/-- When the text has no reasoning-marker match, `re.sub` leaves it
unchanged. -/
theorem subThink_of_none {s : List Char} (h : firstMatch s = none) :
    subThink s = s :=
  subThinkAux_of_none h s.length

/-! ## Lemmas about the turn loop -/

/-- The inner loop appends one tool message per requested invocation. -/
theorem toolMessages_length (env : TurnEnv) :
    ∀ (tcs : List ToolCall) (k : Nat), (toolMessages env k tcs).length = tcs.length
  | [], _ => rfl
  | _ :: rest, k => by
      simp [toolMessages, toolMessages_length env rest (k + 1)]

/-- The inner loop yields one Tool Event per requested invocation. -/
theorem toolEvents_length (env : TurnEnv) :
    ∀ tcs : List ToolCall, (toolEvents env tcs).length = tcs.length
  | [] => rfl
  | _ :: rest => by
      simp [toolEvents, toolEvents_length env rest]

/-- The i-th appended tool message is the handled i-th requested call. -/
theorem toolMessages_get (env : TurnEnv) :
    ∀ (tcs : List ToolCall) (k i : Nat) (hi : i < tcs.length)
      (hi2 : i < (toolMessages env k tcs).length),
      (toolMessages env k tcs)[i]
        = freshMessage env (k + i) (ChatMsg.tool (handle_tool_call env tcs[i]))
  | [], _, i, hi, _ => absurd hi (Nat.not_lt_zero i)
  | tc :: rest, k, 0, _, _ => by simp [toolMessages]
  | tc :: rest, k, i + 1, hi, hi2 => by
      have hlen : i < (toolMessages env (k + 1) rest).length := by
        rw [toolMessages_length]
        exact Nat.lt_of_succ_lt_succ hi
      have ih := toolMessages_get env rest (k + 1) i (Nat.lt_of_succ_lt_succ hi) hlen
      have harith : k + 1 + i = k + (i + 1) := by omega
      simp only [toolMessages, List.getElem_cons_succ]
      rw [ih, harith]

/-- The i-th yielded Tool Event is the projection of the handled i-th
requested call. -/
theorem toolEvents_get (env : TurnEnv) :
    ∀ (tcs : List ToolCall) (i : Nat) (hi : i < tcs.length)
      (hi2 : i < (toolEvents env tcs).length),
      (toolEvents env tcs)[i]
        = create_message_data_tool tcs[i] (handle_tool_call env tcs[i])
  | [], i, hi, _ => absurd hi (Nat.not_lt_zero i)
  | tc :: rest, 0, _, _ => by simp [toolEvents]
  | tc :: rest, i + 1, hi, hi2 => by
      have hlen : i < (toolEvents env rest).length := by
        rw [toolEvents_length]
        exact Nat.lt_of_succ_lt_succ hi
      have ih := toolEvents_get env rest i (Nat.lt_of_succ_lt_succ hi) hlen
      simp only [toolEvents, List.getElem_cons_succ]
      rw [ih]

/-- Every tool message carries the id of its originating call. -/
theorem handle_tool_call_id (env : TurnEnv) (tc : ToolCall) :
    (handle_tool_call env tc).tool_call_id = tc.id := by
  unfold handle_tool_call
  split
  · rfl
  · split <;> rfl

/-- When every arguments string decodes, the assistant-branch list
comprehension succeeds. -/
theorem toolCallDataList_ok (env : TurnEnv) :
    ∀ tcs : List ToolCall,
      (∀ tc ∈ tcs, ∃ a, env.jsonParse tc.arguments = Except.ok a) →
      ∃ ds, toolCallDataList env tcs = Except.ok ds
  | [], _ => ⟨[], rfl⟩
  | tc :: rest, h => by
      obtain ⟨a, ha⟩ := h tc (List.mem_cons_self tc rest)
      obtain ⟨ds, hds⟩ :=
        toolCallDataList_ok env rest (fun x hx => h x (List.mem_cons_of_mem tc hx))
      exact ⟨⟨tc.name, tc.id, a⟩ :: ds, by simp [toolCallDataList, ha, hds]⟩

/-- When some requested call has an undecodable arguments string, the
assistant-branch list comprehension raises. -/
theorem toolCallDataList_error (env : TurnEnv) :
    ∀ (tcs : List ToolCall) (tc : ToolCall) (e : String), tc ∈ tcs →
      env.jsonParse tc.arguments = Except.error e →
      ∃ e2, toolCallDataList env tcs = Except.error e2
  | [], tc, _, h, _ => absurd h (List.not_mem_nil tc)
  | hd :: rest, tc, e, h, he => by
      cases hp : env.jsonParse hd.arguments with
      | error e0 => exact ⟨e0, by simp [toolCallDataList, hp]⟩
      | ok args =>
        rcases List.mem_cons.mp h with h1 | h2
        · subst h1
          rw [he] at hp
          exact absurd hp (by simp)
        · obtain ⟨e2, h3⟩ := toolCallDataList_error env rest tc e h2 he
          exact ⟨e2, by simp [toolCallDataList, hp, h3]⟩

/-- Assistant-event projection succeeds when all arguments decode. -/
theorem cmda_ok (env : TurnEnv) (content : Option String) (tcs : List ToolCall)
    (h : ∀ tc ∈ tcs, ∃ a, env.jsonParse tc.arguments = Except.ok a) :
    ∃ ds, create_message_data_assistant env content tcs
      = Except.ok (MessageData.assistantData content ds) := by
  obtain ⟨ds, hds⟩ := toolCallDataList_ok env tcs h
  exact ⟨ds, by simp [create_message_data_assistant, hds]⟩

/-- Assistant-event projection raises when some arguments fail to
decode. -/
theorem cmda_error (env : TurnEnv) (content : Option String) (tcs : List ToolCall)
    (tc : ToolCall) (e : String) (h : tc ∈ tcs)
    (he : env.jsonParse tc.arguments = Except.error e) :
    ∃ e2, create_message_data_assistant env content tcs = Except.error e2 := by
  obtain ⟨e2, h2⟩ := toolCallDataList_error env tcs tc e h he
  exact ⟨e2, by simp [create_message_data_assistant, h2]⟩

/-- Unfolding: a turn with no budget left issues no completion. -/
theorem runSteps_zero (env : TurnEnv) (step k : Nat) (hist : List Message) :
    runSteps env 0 step k hist = ⟨hist, [], TurnOutcome.completed, 0⟩ := rfl

/-- Unfolding: a failing completion request raises out of the turn. -/
theorem runSteps_fail (env : TurnEnv) (fuel step k : Nat) (hist : List Message)
    (e : String) (hc : env.completions step = CompletionAttempt.fail e) :
    runSteps env (fuel + 1) step k hist = ⟨hist, [], TurnOutcome.raised e, 1⟩ := by
  simp [runSteps, hc]

/-- Unfolding: an assistant response whose event projection raises ends
the turn abnormally right after the assistant message is appended. -/
theorem runSteps_err (env : TurnEnv) (fuel step k : Nat) (hist : List Message)
    (content : Option String) (tcs : List ToolCall) (e : String)
    (hc : env.completions step = CompletionAttempt.ok content tcs)
    (hm : create_message_data_assistant env (strip_thinking content) tcs
      = Except.error e) :
    runSteps env (fuel + 1) step k hist
      = ⟨hist ++ [freshMessage env k (ChatMsg.assistant (strip_thinking content) tcs)],
         [], TurnOutcome.raised e, 1⟩ := by
  simp [runSteps, hc, hm]

/-- Unfolding: a response with no tool calls ends the turn after one
Assistant Event. -/
theorem runSteps_done (env : TurnEnv) (fuel step k : Nat) (hist : List Message)
    (content : Option String) (aev : MessageData)
    (hc : env.completions step = CompletionAttempt.ok content [])
    (hm : create_message_data_assistant env (strip_thinking content) []
      = Except.ok aev) :
    runSteps env (fuel + 1) step k hist
      = ⟨hist ++ [freshMessage env k (ChatMsg.assistant (strip_thinking content) [])],
         [aev], TurnOutcome.completed, 1⟩ := by
  simp [runSteps, hc, hm]

/-- Unfolding: a response with tool calls appends the assistant message
and then all tool results, yields the Assistant Event then the Tool
Events, and continues with the next completion request. -/
theorem runSteps_tools (env : TurnEnv) (fuel step k : Nat) (hist : List Message)
    (content : Option String) (tcs : List ToolCall) (aev : MessageData)
    (hc : env.completions step = CompletionAttempt.ok content tcs)
    (hm : create_message_data_assistant env (strip_thinking content) tcs
      = Except.ok aev)
    (hne : tcs ≠ []) :
    runSteps env (fuel + 1) step k hist
      = ⟨(runSteps env fuel (step + 1) (k + 1 + tcs.length)
            ((hist ++ [freshMessage env k (ChatMsg.assistant (strip_thinking content) tcs)])
              ++ toolMessages env (k + 1) tcs)).history,
         aev :: (toolEvents env tcs ++
           (runSteps env fuel (step + 1) (k + 1 + tcs.length)
             ((hist ++ [freshMessage env k (ChatMsg.assistant (strip_thinking content) tcs)])
               ++ toolMessages env (k + 1) tcs)).events),
         (runSteps env fuel (step + 1) (k + 1 + tcs.length)
           ((hist ++ [freshMessage env k (ChatMsg.assistant (strip_thinking content) tcs)])
             ++ toolMessages env (k + 1) tcs)).outcome,
         (runSteps env fuel (step + 1) (k + 1 + tcs.length)
           ((hist ++ [freshMessage env k (ChatMsg.assistant (strip_thinking content) tcs)])
             ++ toolMessages env (k + 1) tcs)).nCompletions + 1⟩ := by
  simp [runSteps, hc, hm, hne]

/-- The loop only appends: whatever happens, the final history extends
the history it started from. -/
theorem runSteps_extends (env : TurnEnv) :
    ∀ (fuel step k : Nat) (hist : List Message),
      ∃ d, (runSteps env fuel step k hist).history = hist ++ d := by
  intro fuel
  induction fuel with
  | zero =>
    intro step k hist
    exact ⟨[], by simp [runSteps_zero]⟩
  | succ fuel ih =>
    intro step k hist
    cases hc : env.completions step with
    | fail e => exact ⟨[], by simp [runSteps_fail env fuel step k hist e hc]⟩
    | ok content tcs =>
      cases hm : create_message_data_assistant env (strip_thinking content) tcs with
      | error e =>
        exact ⟨[freshMessage env k (ChatMsg.assistant (strip_thinking content) tcs)],
          by rw [runSteps_err env fuel step k hist content tcs e hc hm]⟩
      | ok aev =>
        by_cases hne : tcs = []
        · subst hne
          exact ⟨[freshMessage env k (ChatMsg.assistant (strip_thinking content) [])],
            by rw [runSteps_done env fuel step k hist content aev hc hm]⟩
        · obtain ⟨d, hd⟩ := ih (step + 1) (k + 1 + tcs.length)
            ((hist ++ [freshMessage env k (ChatMsg.assistant (strip_thinking content) tcs)])
              ++ toolMessages env (k + 1) tcs)
          refine ⟨[freshMessage env k (ChatMsg.assistant (strip_thinking content) tcs)]
            ++ toolMessages env (k + 1) tcs ++ d, ?_⟩
          rw [runSteps_tools env fuel step k hist content tcs aev hc hm hne]
          simp only [hd]
          simp [List.append_assoc]

/-- At most `fuel` completion requests are issued. -/
theorem runSteps_nCompletions (env : TurnEnv) :
    ∀ (fuel step k : Nat) (hist : List Message),
      (runSteps env fuel step k hist).nCompletions ≤ fuel := by
  intro fuel
  induction fuel with
  | zero =>
    intro step k hist
    simp [runSteps_zero]
  | succ fuel ih =>
    intro step k hist
    cases hc : env.completions step with
    | fail e =>
      rw [runSteps_fail env fuel step k hist e hc]
      exact Nat.succ_le_succ (Nat.zero_le fuel)
    | ok content tcs =>
      cases hm : create_message_data_assistant env (strip_thinking content) tcs with
      | error e =>
        rw [runSteps_err env fuel step k hist content tcs e hc hm]
        exact Nat.succ_le_succ (Nat.zero_le fuel)
      | ok aev =>
        by_cases hne : tcs = []
        · subst hne
          rw [runSteps_done env fuel step k hist content aev hc hm]
          exact Nat.succ_le_succ (Nat.zero_le fuel)
        · rw [runSteps_tools env fuel step k hist content tcs aev hc hm hne]
          exact Nat.succ_le_succ (ih (step + 1) (k + 1 + tcs.length) _)

/-- When every completion request succeeds and every requested call has
decodable arguments, the loop always ends normally — by a response with
no tool calls or by budget exhaustion. -/
theorem runSteps_completed (env : TurnEnv)
    (H : ∀ s, ∃ content tcs, env.completions s = CompletionAttempt.ok content tcs
        ∧ ∀ tc ∈ tcs, ∃ a, env.jsonParse tc.arguments = Except.ok a) :
    ∀ (fuel step k : Nat) (hist : List Message),
      (runSteps env fuel step k hist).outcome = TurnOutcome.completed := by
  intro fuel
  induction fuel with
  | zero =>
    intro step k hist
    simp [runSteps_zero]
  | succ fuel ih =>
    intro step k hist
    obtain ⟨content, tcs, hc, hp⟩ := H step
    obtain ⟨ds, hm⟩ := cmda_ok env (strip_thinking content) tcs hp
    by_cases hne : tcs = []
    · subst hne
      rw [runSteps_done env fuel step k hist content _ hc hm]
    · rw [runSteps_tools env fuel step k hist content tcs _ hc hm hne]
      exact ih (step + 1) (k + 1 + tcs.length) _

/-- Argument decoding depends only on the shared `json.loads`. -/
theorem toolCallDataList_congr (env env2 : TurnEnv)
    (h : env2.jsonParse = env.jsonParse) :
    ∀ tcs, toolCallDataList env2 tcs = toolCallDataList env tcs
  | [] => rfl
  | tc :: rest => by
      simp [toolCallDataList, h, toolCallDataList_congr env env2 h rest]

/-- How a turn ends is independent of the tool transport (and of the
uuid/clock oracles and the starting history): only the completion
responses and the argument decoder decide between normal completion and
an abnormal end.  In particular tool failures never abort the turn. -/
theorem runSteps_outcome_congr (env env2 : TurnEnv)
    (h1 : env2.completions = env.completions)
    (h2 : env2.jsonParse = env.jsonParse) :
    ∀ (fuel step k : Nat) (hist hist2 : List Message),
      (runSteps env2 fuel step k hist2).outcome
        = (runSteps env fuel step k hist).outcome := by
  intro fuel
  induction fuel with
  | zero =>
    intro step k hist hist2
    simp [runSteps_zero]
  | succ fuel ih =>
    intro step k hist hist2
    have hcm : ∀ content tcs,
        create_message_data_assistant env2 (strip_thinking content) tcs
          = create_message_data_assistant env (strip_thinking content) tcs := by
      intro content tcs
      simp [create_message_data_assistant, toolCallDataList_congr env env2 h2 tcs]
    cases hc : env.completions step with
    | fail e =>
      rw [runSteps_fail env fuel step k hist e hc,
        runSteps_fail env2 fuel step k hist2 e (by rw [h1, hc])]
    | ok content tcs =>
      have hc2 : env2.completions step = CompletionAttempt.ok content tcs := by
        rw [h1, hc]
      cases hm : create_message_data_assistant env (strip_thinking content) tcs with
      | error e =>
        rw [runSteps_err env fuel step k hist content tcs e hc hm,
          runSteps_err env2 fuel step k hist2 content tcs e hc2 ((hcm content tcs).trans hm)]
      | ok aev =>
        by_cases hne : tcs = []
        · subst hne
          rw [runSteps_done env fuel step k hist content aev hc hm,
            runSteps_done env2 fuel step k hist2 content aev hc2 ((hcm content []).trans hm)]
        · rw [runSteps_tools env fuel step k hist content tcs aev hc hm hne,
            runSteps_tools env2 fuel step k hist2 content tcs aev hc2
              ((hcm content tcs).trans hm) hne]
          exact ih (step + 1) (k + 1 + tcs.length) _ _

/-- A turn only appends to the history it was given. -/
theorem turn_extends (env : TurnEnv) (cfg : AgentConfig) (u : String)
    (hist : List Message) (k : Nat) :
    ∃ d, (turn env cfg u hist k).history = hist ++ d := by
  cases hl : env.listTools with
  | error e => exact ⟨[], by simp [turn, hl]⟩
  | ok v =>
    obtain ⟨d, hd⟩ := runSteps_extends env cfg.max_steps.toNat 0 (k + 1)
      (hist ++ [freshMessage env k (ChatMsg.user u)])
    refine ⟨[freshMessage env k (ChatMsg.user u)] ++ d, ?_⟩
    simp only [turn, hl, hd]
    simp [List.append_assoc]

/-- A sequence of turns only appends to the history it was given. -/
theorem runTurns_extends (cfg : AgentConfig) :
    ∀ (envs : List (TurnEnv × String)) (hist : List Message) (k : Nat),
      ∃ d, runTurns cfg envs hist k = hist ++ d
  | [], hist, _ => ⟨[], by simp [runTurns]⟩
  | (env, u) :: rest, hist, k => by
      obtain ⟨d1, h1⟩ := turn_extends env cfg u hist k
      obtain ⟨d2, h2⟩ := runTurns_extends cfg rest (turn env cfg u hist k).history
        (k + ((turn env cfg u hist k).history.length - hist.length))
      exact ⟨d1 ++ d2, by rw [runTurns, h2, h1, List.append_assoc]⟩

/-! ## Concrete environments for witnesses and counterexamples -/

/-- Whether a stored message is a tool result. -/
def isToolResult (m : Message) : Bool :=
  match m.chat_completion_message_param with
  | ChatMsg.tool _ => true
  | _ => false

/-- A benign environment: tool listing succeeds, every completion is a
plain text answer with no tool calls, arguments always decode, tools
always return text. -/
def baseEnv : TurnEnv where
  systemPrompt := "You are a helpful CLI assistant."
  listTools := Except.ok ()
  completions := fun _ => CompletionAttempt.ok (some "Done.") []
  jsonParse := fun _ => Except.ok []
  toolExec := fun _ _ => ToolOutcome.ok [MCPContent.text "ok"]
  uuid := fun n => Nat.repr n
  classDefTime := 0

/-- A well-formed tool call whose arguments decode. -/
def tcC1 : ToolCall := ⟨"c1", "view", "{}"⟩

/-- Environment whose first completion requests exactly `tcC1`. -/
def envC1 : TurnEnv :=
  { baseEnv with completions := fun _ => CompletionAttempt.ok none [tcC1] }

/-- A tool call whose arguments string does not decode. -/
def tcC1x : ToolCall := ⟨"c2", "view", "not json"⟩

/-- Environment whose first completion requests exactly `tcC1x` and
whose decoder rejects its arguments. -/
def envC1x : TurnEnv :=
  { baseEnv with
    completions := fun _ => CompletionAttempt.ok none [tcC1x]
    jsonParse := fun _ => Except.error "bad" }

/-- A tool call whose arguments string does not decode. -/
def tcC3 : ToolCall := ⟨"c9", "fetch", "oops"⟩

/-- Environment whose first completion requests exactly `tcC3` and
whose decoder raises on its arguments. -/
def envC3 : TurnEnv :=
  { baseEnv with
    completions := fun _ => CompletionAttempt.ok none [tcC3]
    jsonParse := fun _ => Except.error "Expecting value" }

/-- Environment whose tool transport always raises. -/
def envC2 : TurnEnv :=
  { baseEnv with toolExec := fun _ _ => ToolOutcome.exn "boom" }

/-- A tool call dispatched in `envC2`. -/
def tcC2 : ToolCall := ⟨"c1", "fetch", "{}"⟩

/-- Environment whose tool listing raises. -/
def envDown : TurnEnv :=
  { baseEnv with listTools := Except.error "connection closed" }

/-- Input on which removing a reasoning span splices a new marker pair. -/
def cexS : String := "<th<think>a</think>ink>b</think>"

/-! ## The claims -/

/-- Claim C1, counterexample: the first completion of `envC1x` requests
k = 1 tool invocation, but its arguments string does not decode, so the
turn raises out of the assistant-event projection and appends zero
tool-result messages — not exactly k. -/
theorem C1_counterexample :
    envC1x.completions 0 = CompletionAttempt.ok none [tcC1x]
    ∧ [tcC1x].length = 1
    ∧ (turn envC1x ⟨25⟩ "go" [] 0).outcome = TurnOutcome.raised "bad"
    ∧ ((turn envC1x ⟨25⟩ "go" [] 0).history.all fun m => ! isToolResult m) = true :=
  ⟨rfl, rfl, by decide, by decide⟩

/-- Claim C1 (amended): for every assistant message whose k requested
tool invocations all have decodable argument strings, the loop appends
exactly k tool-result messages right after the assistant message — one
per invocation, in request order, each carrying the id of its
invocation — and everything later steps append comes after them, so all
k results are in history before the next completion request. -/
theorem C1_amended_tool_results_per_request :
    ∀ (env : TurnEnv) (fuel step k : Nat) (hist : List Message)
      (content : Option String) (tcs : List ToolCall),
      env.completions step = CompletionAttempt.ok content tcs →
      (∀ tc ∈ tcs, ∃ a, env.jsonParse tc.arguments = Except.ok a) →
      (toolMessages env (k + 1) tcs).length = tcs.length
      ∧ (∃ d, (runSteps env (fuel + 1) step k hist).history
          = hist ++ freshMessage env k (ChatMsg.assistant (strip_thinking content) tcs)
              :: (toolMessages env (k + 1) tcs ++ d))
      ∧ (∀ (i : Nat) (hi : i < tcs.length)
          (hi2 : i < (toolMessages env (k + 1) tcs).length),
          ((toolMessages env (k + 1) tcs)[i]).chat_completion_message_param
            = ChatMsg.tool (handle_tool_call env tcs[i])
          ∧ (handle_tool_call env tcs[i]).tool_call_id = tcs[i].id) := by
  intro env fuel step k hist content tcs hc hp
  obtain ⟨ds, hm⟩ := cmda_ok env (strip_thinking content) tcs hp
  refine ⟨toolMessages_length env tcs (k + 1), ?_, ?_⟩
  · by_cases hne : tcs = []
    · subst hne
      refine ⟨[], ?_⟩
      rw [runSteps_done env fuel step k hist content _ hc hm]
      simp [toolMessages]
    · obtain ⟨d, hd⟩ := runSteps_extends env fuel (step + 1) (k + 1 + tcs.length)
        ((hist ++ [freshMessage env k (ChatMsg.assistant (strip_thinking content) tcs)])
          ++ toolMessages env (k + 1) tcs)
      refine ⟨d, ?_⟩
      rw [runSteps_tools env fuel step k hist content tcs _ hc hm hne]
      simp only [hd]
      simp [List.append_assoc]
  · intro i hi hi2
    refine ⟨?_, handle_tool_call_id env _⟩
    rw [toolMessages_get env tcs (k + 1) i hi hi2]
    rfl

/-- Claim C1, witness: the amended statement evaluated in `envC1`. -/
theorem C1_witness :
    (toolMessages envC1 1 [tcC1]).length = [tcC1].length
    ∧ (∃ d, (runSteps envC1 1 0 0 []).history
        = [] ++ freshMessage envC1 0 (ChatMsg.assistant (strip_thinking none) [tcC1])
            :: (toolMessages envC1 1 [tcC1] ++ d))
    ∧ (∀ (i : Nat) (hi : i < [tcC1].length)
        (hi2 : i < (toolMessages envC1 1 [tcC1]).length),
        ((toolMessages envC1 1 [tcC1])[i]).chat_completion_message_param
          = ChatMsg.tool (handle_tool_call envC1 [tcC1][i])
        ∧ (handle_tool_call envC1 [tcC1][i]).tool_call_id = [tcC1][i].id) :=
  C1_amended_tool_results_per_request envC1 0 0 0 [] none [tcC1] rfl
    (fun _ _ => ⟨[], rfl⟩)

/-- The tool error message is nonempty. -/
theorem errorMessage_ne_empty (name e : String) : errorMessage name e ≠ "" := by
  intro h
  have hl := congrArg String.length h
  simp only [errorMessage, String.length_append] at hl
  have h0 : 0 < "Error executing tool call ".length := by decide
  have h00 : ("" : String).length = 0 := rfl
  rw [h00] at hl
  omega

/-- Claim C2: a tool invocation whose dispatch raises (after its
arguments decode) is caught by handle_tool_call, which returns a tool
message whose content is the nonempty string
"Error executing tool call '&lt;name&gt;': " followed by the exception
message; the inner loop still yields exactly one Tool Event per
invocation, the one for this invocation carrying exactly that content;
and the turn's outcome never depends on the tool transport, so a tool
failure cannot make `turn()` end abnormally. -/
theorem C2_soft_tool_failure :
    ∀ (env : TurnEnv) (tc : ToolCall) (args : ArgsMap) (e : String),
      env.jsonParse tc.arguments = Except.ok args →
      env.toolExec tc.name args = ToolOutcome.exn e →
      handle_tool_call env tc
          = ⟨ToolMsgContent.str (errorMessage tc.name e), tc.id⟩
      ∧ errorMessage tc.name e ≠ ""
      ∧ (∃ post, errorMessage tc.name e
          = ("Error executing tool call " ++ sq ++ tc.name ++ sq) ++ post)
      ∧ (∀ tcs : List ToolCall, (toolEvents env tcs).length = tcs.length)
      ∧ (∀ (tcs : List ToolCall) (i : Nat) (hi : i < tcs.length)
          (hi2 : i < (toolEvents env tcs).length), tcs[i] = tc →
          (toolEvents env tcs)[i]
            = MessageData.toolData tc.name tc.id (errorMessage tc.name e))
      ∧ (∀ env2 : TurnEnv, env2.completions = env.completions →
          env2.jsonParse = env.jsonParse →
          ∀ (fuel step k : Nat) (hist hist2 : List Message),
            (runSteps env2 fuel step k hist2).outcome
              = (runSteps env fuel step k hist).outcome) := by
  intro env tc args e h1 h2
  have hmsg : handle_tool_call env tc
      = ⟨ToolMsgContent.str (errorMessage tc.name e), tc.id⟩ := by
    simp [handle_tool_call, h1, h2]
  refine ⟨hmsg, errorMessage_ne_empty tc.name e,
    ⟨": " ++ e ++ errorAdvice, by simp [errorMessage, String.append_assoc]⟩,
    toolEvents_length env, ?_, ?_⟩
  · intro tcs i hi hi2 hg
    rw [toolEvents_get env tcs i hi hi2, hg, hmsg]
    rfl
  · intro env2 ha hb fuel step k hist hist2
    exact runSteps_outcome_congr env env2 ha hb fuel step k hist hist2

/-- Claim C2, witness: the caught tool failure in `envC2`. -/
theorem C2_witness :
    handle_tool_call envC2 tcC2
      = ⟨ToolMsgContent.str (errorMessage "fetch" "boom"), "c1"⟩ :=
  (C2_soft_tool_failure envC2 tcC2 [] "boom" rfl rfl).1

/-- Claim C3, counterexample: in `envC3` the only requested invocation
has an undecodable arguments string; the turn terminates abnormally
with no event yielded and no tool-result message appended, instead of
converting the failure into a Tool Result and continuing. -/
theorem C3_counterexample :
    envC3.completions 0 = CompletionAttempt.ok none [tcC3]
    ∧ envC3.jsonParse tcC3.arguments = Except.error "Expecting value"
    ∧ (turn envC3 ⟨25⟩ "q" [] 0).outcome = TurnOutcome.raised "Expecting value"
    ∧ (turn envC3 ⟨25⟩ "q" [] 0).events = []
    ∧ ((turn envC3 ⟨25⟩ "q" [] 0).history.all fun m => ! isToolResult m) = true :=
  ⟨rfl, rfl, by decide, by decide, by decide⟩

/-- Claim C3 (amended): handle_tool_call on its own converts an
argument-decode failure into a tool message carrying an error message,
but inside `turn()` the failure surfaces earlier: the assistant-event
projection decodes all arguments first and raises, so the turn ends
abnormally right after the assistant message is appended, with no tool
result appended and no event yielded for that response. -/
theorem C3_amended_decode_error :
    ∀ (env : TurnEnv) (tc : ToolCall) (e : String),
      env.jsonParse tc.arguments = Except.error e →
      handle_tool_call env tc
          = ⟨ToolMsgContent.str (errorMessage tc.name e), tc.id⟩
      ∧ (∀ (fuel step k : Nat) (hist : List Message)
          (content : Option String) (tcs : List ToolCall),
          env.completions step = CompletionAttempt.ok content tcs →
          tc ∈ tcs →
          ∃ e2, runSteps env (fuel + 1) step k hist
            = ⟨hist ++ [freshMessage env k (ChatMsg.assistant (strip_thinking content) tcs)],
               [], TurnOutcome.raised e2, 1⟩) := by
  intro env tc e he
  refine ⟨by simp [handle_tool_call, he], ?_⟩
  intro fuel step k hist content tcs hc hmem
  obtain ⟨e2, hm⟩ := cmda_error env (strip_thinking content) tcs tc e hmem he
  exact ⟨e2, runSteps_err env fuel step k hist content tcs e2 hc hm⟩

/-- Claim C3, witness: the amended statement evaluated in `envC3`. -/
theorem C3_witness :
    handle_tool_call envC3 tcC3
      = ⟨ToolMsgContent.str (errorMessage "fetch" "Expecting value"), "c9"⟩ :=
  (C3_amended_decode_error envC3 tcC3 "Expecting value" rfl).1

/-- Claim C4: a turn issues at most max_steps completion requests; and
whenever every completion succeeds with decodable tool arguments (in
particular when the budget, not an error, is what stops the loop), the
turn ends normally. -/
theorem C4_step_budget :
    (∀ (env : TurnEnv) (cfg : AgentConfig) (u : String) (hist : List Message)
      (k : Nat), (turn env cfg u hist k).nCompletions ≤ cfg.max_steps.toNat)
    ∧ (∀ (env : TurnEnv) (cfg : AgentConfig) (u : String) (hist : List Message)
        (k : Nat),
        env.listTools = Except.ok () →
        (∀ s, ∃ content tcs, env.completions s = CompletionAttempt.ok content tcs
            ∧ ∀ tc ∈ tcs, ∃ a, env.jsonParse tc.arguments = Except.ok a) →
        (turn env cfg u hist k).outcome = TurnOutcome.completed) := by
  constructor
  · intro env cfg u hist k
    cases hl : env.listTools with
    | error e => simp [turn, hl]
    | ok v =>
      simp only [turn, hl]
      exact runSteps_nCompletions env cfg.max_steps.toNat 0 (k + 1) _
  · intro env cfg u hist k hl H
    simp only [turn, hl]
    exact runSteps_completed env H cfg.max_steps.toNat 0 (k + 1) _

/-- Claim C4, witness: the bound and the normal ending in `baseEnv`. -/
theorem C4_witness :
    (turn baseEnv ⟨25⟩ "hi" [] 0).nCompletions ≤ (⟨25⟩ : AgentConfig).max_steps.toNat
    ∧ (turn baseEnv ⟨25⟩ "hi" [] 0).outcome = TurnOutcome.completed :=
  ⟨C4_step_budget.1 baseEnv ⟨25⟩ "hi" [] 0,
   C4_step_budget.2 baseEnv ⟨25⟩ "hi" [] 0 rfl
     (fun _ => ⟨some "Done.", [], rfl, fun tc htc => absurd htc (List.not_mem_nil tc)⟩)⟩

/-- Claim C5, counterexample: with `max_steps = 0` — a value the int
field admits — a turn executes no loop iteration and yields no event at
all, although tool listing succeeds and the completion oracle is
well-behaved. -/
theorem C5_counterexample :
    baseEnv.listTools = Except.ok ()
    ∧ (turn baseEnv ⟨0⟩ "hi" (agentInit baseEnv) 1).events = [] :=
  ⟨rfl, by decide⟩

/-- Claim C5 (amended): whenever tool listing succeeds, `max_steps ≥ 1`,
and the first completion succeeds with decodable tool arguments, the
turn yields at least one event and the first one is an Assistant
Event. -/
theorem C5_amended_at_least_one_event :
    ∀ (env : TurnEnv) (cfg : AgentConfig) (u : String) (hist : List Message)
      (k : Nat) (content : Option String) (tcs : List ToolCall),
      env.listTools = Except.ok () →
      1 ≤ cfg.max_steps →
      env.completions 0 = CompletionAttempt.ok content tcs →
      (∀ tc ∈ tcs, ∃ a, env.jsonParse tc.arguments = Except.ok a) →
      ∃ ds evs, (turn env cfg u hist k).events
        = MessageData.assistantData (strip_thinking content) ds :: evs := by
  intro env cfg u hist k content tcs hl hs hc hp
  obtain ⟨ds, hm⟩ := cmda_ok env (strip_thinking content) tcs hp
  obtain ⟨m, hmn⟩ : ∃ m, cfg.max_steps.toNat = m + 1 :=
    ⟨cfg.max_steps.toNat - 1, by omega⟩
  simp only [turn, hl, hmn]
  by_cases hne : tcs = []
  · subst hne
    rw [runSteps_done env m 0 (k + 1) _ content _ hc hm]
    exact ⟨ds, [], rfl⟩
  · rw [runSteps_tools env m 0 (k + 1) _ content tcs _ hc hm hne]
    exact ⟨ds, _, rfl⟩

/-- Claim C5, witness: the amended statement evaluated in `baseEnv`. -/
theorem C5_witness :
    ∃ ds evs, (turn baseEnv ⟨25⟩ "hi" [] 0).events
      = MessageData.assistantData (strip_thinking (some "Done.")) ds :: evs :=
  C5_amended_at_least_one_event baseEnv ⟨25⟩ "hi" [] 0 (some "Done.") [] rfl
    (by decide) rfl (fun tc htc => absurd htc (List.not_mem_nil tc))

/-- Claim C6, counterexample: stripping reasoning markup is not
idempotent — removing the span of `cexS` splices a fresh marker pair,
which only a second application removes. -/
theorem C6_counterexample :
    strip_thinking (strip_thinking (some cexS)) ≠ strip_thinking (some cexS) := by
  decide

/-- Claim C6 (amended): strip_thinking returns None and the empty
string unaffected; on text with no marker match it only trims
surrounding whitespace; and applying it twice equals applying it once
whenever the once-stripped text has no remaining marker match (in
general a removal can splice a new marker pair, so idempotence fails). -/
theorem C6_amended_strip_thinking :
    strip_thinking none = none
    ∧ strip_thinking (some "") = some ""
    ∧ (∀ s : String, firstMatch s.toList = none →
        strip_thinking (some s) = some (String.mk (pyStrip s.toList)))
    ∧ (∀ s t : String, strip_thinking (some s) = some t →
        firstMatch t.toList = none → strip_thinking (some t) = some t) := by
  refine ⟨rfl, rfl, ?_, ?_⟩
  · intro s h
    by_cases hs : s = ""
    · subst hs
      rfl
    · simp only [strip_thinking, if_neg hs]
      rw [subThink_of_none h]
  · intro s t h1 h2
    by_cases hs : s = ""
    · subst hs
      have h1b : ("" : String) = t := Option.some.inj h1
      rw [← h1b]
      rfl
    · simp only [strip_thinking, if_neg hs] at h1
      have ht : t = String.mk (pyStrip (subThink s.toList)) := (Option.some.inj h1).symm
      by_cases h0 : t = ""
      · rw [h0]
        rfl
      · simp only [strip_thinking, if_neg h0]
        have hTL : t.toList = pyStrip (subThink s.toList) := by
          rw [ht]
          rfl
        rw [subThink_of_none h2, hTL, pyStrip_idem, ← hTL, mk_toList]

/-- Claim C6, witness: the amended statement evaluated on "hello". -/
theorem C6_witness :
    strip_thinking (some "hello") = some (String.mk (pyStrip "hello".toList))
    ∧ strip_thinking (some "hello") = some "hello" :=
  ⟨C6_amended_strip_thinking.2.2.1 "hello" (by decide),
   C6_amended_strip_thinking.2.2.2 "hello" "hello" (by decide) (by decide)⟩

/-- Claim C7: the history is append-only — each turn, and each sequence
of turns, extends the history it started from, so its length never
decreases and every earlier message stays at its position — and the
first message is always the system message created at agent
construction. -/
theorem C7_history_append_only :
    (∀ (env : TurnEnv) (cfg : AgentConfig) (u : String) (hist : List Message)
      (k : Nat), ∃ d, (turn env cfg u hist k).history = hist ++ d)
    ∧ (∀ (cfg : AgentConfig) (envs : List (TurnEnv × String))
        (hist : List Message) (k : Nat),
        ∃ d, runTurns cfg envs hist k = hist ++ d)
    ∧ (∀ (cfg : AgentConfig) (envs : List (TurnEnv × String))
        (hist : List Message) (k : Nat),
        hist.length ≤ (runTurns cfg envs hist k).length
        ∧ (runTurns cfg envs hist k).take hist.length = hist)
    ∧ (∀ (cfg : AgentConfig) (envs : List (TurnEnv × String)) (env0 : TurnEnv),
        (runTurns cfg envs (agentInit env0) 1).head?
          = some (freshMessage env0 0 (ChatMsg.system env0.systemPrompt))) := by
  refine ⟨turn_extends, runTurns_extends, ?_, ?_⟩
  · intro cfg envs hist k
    obtain ⟨d, hd⟩ := runTurns_extends cfg envs hist k
    rw [hd]
    exact ⟨by simp, List.take_left hist d⟩
  · intro cfg envs env0
    obtain ⟨d, hd⟩ := runTurns_extends cfg envs (agentInit env0) 1
    rw [hd]
    rfl

/-- Claim C8: two Messages constructed with default fields at any two
wall-clock times carry the same timestamp — the pydantic default
`DateTime.now()` was evaluated once, when the Message class was
defined — while `message_id` does come from a per-construction
`default_factory` draw.  So messages are not independently
timestamped. -/
theorem C8_shared_default_timestamp :
    ∀ (env : TurnEnv) (t1 t2 d1 d2 : Nat) (p1 p2 : ChatMsg),
      (Message.construct env t1 d1 p1).timestamp
          = (Message.construct env t2 d2 p2).timestamp
      ∧ (Message.construct env t1 d1 p1).message_id = env.uuid d1 :=
  fun _ _ _ _ _ _ _ => ⟨rfl, rfl⟩

/-- Claim C9: projecting a tool result whose content is not a string
yields a Tool Event whose content is the empty string. -/
theorem C9_nonstring_tool_content :
    ∀ (tc : ToolCall) (tag tcid : String),
      create_message_data_tool tc ⟨ToolMsgContent.nonStr tag, tcid⟩
        = MessageData.toolData tc.name tc.id "" :=
  fun _ _ _ => rfl

/-- Claim C10: tool discovery happens before the user utterance is
appended, so a failing list_tools leaves the history exactly as it was,
yields no event, and issues no completion request. -/
theorem C10_list_tools_failure_atomic :
    ∀ (env : TurnEnv) (cfg : AgentConfig) (u : String) (hist : List Message)
      (k : Nat) (e : String),
      env.listTools = Except.error e →
      turn env cfg u hist k = ⟨hist, [], TurnOutcome.raised e, 0⟩ := by
  intro env cfg u hist k e hl
  simp [turn, hl]

/-- Claim C10, witness: the atomic failure evaluated in `envDown`. -/
theorem C10_witness :
    turn envDown ⟨25⟩ "hi" [] 0
      = ⟨[], [], TurnOutcome.raised "connection closed", 0⟩ :=
  C10_list_tools_failure_atomic envDown ⟨25⟩ "hi" [] 0 "connection closed" rfl

end TinkerTasker
